import Mathlib

/-!
Verification of the ALM operator's reconciliation core (src/alm/alm.go).

The development shallowly embeds the package `alm`: the cached-object data
model, the `sync` handler, the worker/retry protocol of
`processNextWorkItem`/`worker`, the startup race of `Run`, the event handler
registration of `New`, and — modelled from the specification, since the
work-queue collaborator's implementation is external to the repository — the
deduplicating work queue with its in-flight tracking.  Side-effecting calls
(queue operations, the error reporter, log statements, the install call) are
recorded as explicit effect traces.
-/

namespace Alm

/-- A dynamically typed value held in an unstructured map (a Go
`interface{}` value inside `InstallStrategy.UnstructuredContent()`).
`str` is a string; `other` is any non-string value (tagged arbitrarily). -/
inductive UValue
  | str (s : String)
  | other (tag : String)
  deriving DecidableEq

/-- A string-keyed unstructured map (Go `map[string]interface{}`), as an
association list. -/
def UMap := List (String × UValue)

/-- Go map indexing `m[k]`: `none` models the `nil` interface value returned
for an absent key. -/
instance : DecidableEq UMap :=
  fun a b => List.hasDecEq a b

def UMap.get (m : UMap) (k : String) : Option UValue :=
  (m.find? (fun p => p.1 == k)).map (fun p => p.2)

/-- Object metadata: the fields of `metav1.ObjectMeta` that `alm.go` reads. -/
structure ObjectMeta where
  Namespace : String
  Name : String
  deriving DecidableEq

/-- The install strategy object, read through `UnstructuredContent()`. -/
structure Unstructured where
  UnstructuredContent : UMap
  deriving DecidableEq

/-- The spec of an OperatorVersion: `alm.go` reads only `InstallStrategy`. -/
structure OperatorVersionSpec where
  InstallStrategy : Unstructured
  deriving DecidableEq

/-- The OperatorVersion resource as used by `sync`. -/
structure OperatorVersion where
  ObjectMeta : ObjectMeta
  Spec : OperatorVersionSpec
  deriving DecidableEq

/-- A value stored in the informer's indexer (a Go `interface{}`); the type
assertion `obj.(*OperatorVersion)` succeeds only for `opVer`. -/
inductive StoredObj
  | opVer (ov : OperatorVersion)
  | foreign (tag : String)
  deriving DecidableEq

/-- Result of the indexer's `GetByKey`, i.e. the Go `(obj, exists, err)`
triple: `err msg` is a lookup error, `absent` is `exists = false`, and
`present o` is `exists = true` with stored value `o`. -/
inductive LookupResult
  | err (msg : String)
  | absent
  | present (o : StoredObj)
  deriving DecidableEq

/-- The read interface of the informer's indexer (the cache mirror). -/
def Indexer := String → LookupResult

/-- Operations against the cache mirror.  `getByKey` is the only read;
`addObj`/`updateObj`/`deleteObj` are the writes available to the informer's
reflector (never issued by the reconcile logic). -/
inductive CacheOp
  | getByKey (k : String)
  | addObj (k : String) (o : StoredObj)
  | updateObj (k : String) (o : StoredObj)
  | deleteObj (k : String)
  deriving DecidableEq

/-- Whether a cache operation mutates the cache contents. -/
def CacheOp.isMutation : CacheOp → Bool
  | .getByKey _ => false
  | .addObj _ _ => true
  | .updateObj _ _ => true
  | .deleteObj _ => true

/-- Interpretation of one cache operation on a cache state. -/
def applyCacheOp (store : Indexer) : CacheOp → Indexer
  | .getByKey _ => store
  | .addObj k o => fun q => if q = k then .present o else store q
  | .updateObj k o => fun q => if q = k then .present o else store q
  | .deleteObj k => fun q => if q = k then .absent else store q

/-- Interpretation of a sequence of cache operations on a cache state. -/
def applyCacheOps (store : Indexer) (ops : List CacheOp) : Indexer :=
  ops.foldl applyCacheOp store

/-- Effects performed by `sync`: cache operations, log statements and the
install call (`KubeDeployment.Install`). -/
inductive SyncEffect
  | cacheOp (op : CacheOp)
  | logInfo (msg : String)
  | installCall (ns : String) (deployments : Option UValue)
  deriving DecidableEq

/-- Whether a sync effect is an installation call. -/
def SyncEffect.isInstall : SyncEffect → Bool
  | .installCall _ _ => true
  | .cacheOp _ => false
  | .logInfo _ => false

/-- The cache operations contained in a sync effect trace. -/
def cacheOpsOf (effs : List SyncEffect) : List CacheOp :=
  effs.filterMap (fun e =>
    match e with
    | .cacheOp op => some op
    | .logInfo _ => none
    | .installCall _ _ => none)

/-- Operations issued against the work queue by the operator's code. -/
inductive QueueOp
  | get
  | done (k : String)
  | forget (k : String)
  | addRateLimited (k : String)
  | add (k : String)
  deriving DecidableEq

/-- Effects of one worker step: queue operations, the shared non-fatal error
reporter (`utilruntime.HandleError`), and the effects of `sync`. -/
inductive WorkerEffect
  | queue (op : QueueOp)
  | handleError (msg : String)
  | syncEff (e : SyncEffect)
  deriving DecidableEq

/-- Whether a worker effect is a `Done` call on the queue. -/
def WorkerEffect.isDone : WorkerEffect → Bool
  | .queue (.done _) => true
  | .queue .get => false
  | .queue (.forget _) => false
  | .queue (.addRateLimited _) => false
  | .queue (.add _) => false
  | .handleError _ => false
  | .syncEff _ => false

/-- The operator with its collaborators: `store` is the informer's indexer
(`o.informer.GetIndexer()`), and `installAction` is the install collaborator
`alm.NewKubeDeployment(o.opClient).Install`, a function of
`(namespace, deployments-payload)` returning an error or `none`. -/
structure Operator where
  store : Indexer
  installAction : String → Option UValue → Option String

/-- Translation of `Operator.sync` (src/alm/alm.go:140-169).  It reads the
key from the indexer; a lookup error is returned as-is; a missing object is
ignored (returns `nil`); a stored value that is not an `*OperatorVersion`
yields a cast error; then the install strategy's `strategy` entry is
asserted to a string (else a cast error); if it equals `"deployment"` the
install collaborator is called — the source discards the call's result —
and `sync` returns `nil`. -/
def Operator.sync (o : Operator) (key : String) : Option String × List SyncEffect :=
  match o.store key with
  | .err msg => (some msg, [.cacheOp (.getByKey key)])
  | .absent => (none, [.cacheOp (.getByKey key)])
  | .present (.foreign _) =>
    (some "casting OperatorVersionSpec failed", [.cacheOp (.getByKey key)])
  | .present (.opVer operatorVersion) =>
    let install := operatorVersion.Spec.InstallStrategy.UnstructuredContent
    match install.get "strategy" with
    | some (.str strategyString) =>
      if strategyString == "deployment" then
        let _ := o.installAction operatorVersion.ObjectMeta.Namespace
          (install.get "deployments")
        (none, [.cacheOp (.getByKey key), .logInfo "sync OperatorVersionSpec",
                .installCall operatorVersion.ObjectMeta.Namespace
                  (install.get "deployments")])
      else
        (none, [.cacheOp (.getByKey key), .logInfo "sync OperatorVersionSpec"])
    | some (.other _) =>
      (some "casting strategy failed",
       [.cacheOp (.getByKey key), .logInfo "sync OperatorVersionSpec"])
    | none =>
      (some "casting strategy failed",
       [.cacheOp (.getByKey key), .logInfo "sync OperatorVersionSpec"])

/-- Translation of `Operator.processNextWorkItem` (src/alm/alm.go:121-138).
`getResult` is the `(key, quit)` pair returned by `o.queue.Get()`.  On
`quit` the function returns `false`.  Otherwise `Done(key)` is deferred;
`sync` runs; on success `Forget(key)` is called and the function returns
`true`; on error the error is wrapped as by
`errors.Wrap(err, fmt.Sprintf("Sync %q failed", key))`, reported through
`utilruntime.HandleError`, and `AddRateLimited(key)` is called before the
deferred `Done(key)`; the function returns `true`. -/
def Operator.processNextWorkItem (o : Operator) (getResult : String × Bool) :
    Bool × List WorkerEffect :=
  let key := getResult.1
  let quit := getResult.2
  if quit then
    (false, [.queue .get])
  else
    match o.sync key with
    | (none, effs) =>
      (true, .queue .get :: (effs.map WorkerEffect.syncEff ++
        [.queue (.forget key), .queue (.done key)]))
    | (some e, effs) =>
      (true, .queue .get :: (effs.map WorkerEffect.syncEff ++
        [.handleError ("Sync \"" ++ key ++ "\" failed: " ++ e),
         .queue (.addRateLimited key), .queue (.done key)]))

/-- Translation of `Operator.worker` (src/alm/alm.go:114-119): repeat
`processNextWorkItem` until it returns `false`.  The argument lists the
successive results the queue's `Get` delivers; the trace of worker effects
is returned. -/
def Operator.worker (o : Operator) : List (String × Bool) → List WorkerEffect
  | [] => []
  | g :: rest =>
    match o.processNextWorkItem g with
    | (true, effs) => effs ++ o.worker rest
    | (false, effs) => effs

/-- Result of the connectivity probe's `ServerVersion()` call: `ok` on
success, `fail e` on a communication error `e`. -/
inductive ProbeResult
  | ok
  | fail (e : String)
  deriving DecidableEq

/-- The goroutine of `Run` (src/alm/alm.go:59-67): it probes the server and
sends on `errChan` either `nil` or the probe error wrapped as
`errors.Wrap(err, "communicating with server failed")`. -/
def probeGoroutine : ProbeResult → Option String
  | .ok => none
  | .fail e => some ("communicating with server failed: " ++ e)

/-- Which branch of `Run`'s startup `select` fires first: reception of the
probe goroutine's message on `errChan`, or the stop channel. -/
inductive RaceWinner
  | probe (result : ProbeResult)
  | stop
  deriving DecidableEq

/-- Observable outcome of one `Run` invocation: the returned error, whether
the operator reached its running phase (logged `"Operator ready"`), and
whether the worker goroutine and the informer (cache mirror) were started. -/
structure RunOutcome where
  retErr : Option String
  enteredRunning : Bool
  workerStarted : Bool
  informerStarted : Bool
  deriving DecidableEq

/-- Translation of `Operator.Run`'s startup phase (src/alm/alm.go:55-84).
If the `select` receives a non-nil probe error first, `Run` returns it
without starting the worker or the informer.  If it receives `nil`, the
operator logs readiness, starts the worker and the informer, blocks on the
stop channel and finally returns `nil`.  If the stop channel fires first,
`Run` returns `nil` immediately, never starting anything. -/
def Run : RaceWinner → RunOutcome
  | .probe r =>
    match probeGoroutine r with
    | some e => ⟨some e, false, false, false⟩
    | none => ⟨none, true, true, true⟩
  | .stop => ⟨none, false, false, false⟩

/-- A raw object as delivered to `keyFunc`
(`cache.DeletionHandlingMetaNamespaceKeyFunc`): an object carrying metadata,
a deletion tombstone carrying its key, or a value from which no key can be
derived (the key function errors). -/
inductive RawObj
  | meta (ns : String) (name : String)
  | tombstone (key : String)
  | bad (tag : String)
  deriving DecidableEq

/-- `cache.MetaNamespaceKeyFunc`'s key format: `namespace/name`, or bare
`name` for a cluster-scoped (empty-namespace) object. -/
def metaNamespaceKey (ns name : String) : String :=
  if ns == "" then name else ns ++ "/" ++ name

/-- Translation of `Operator.keyFunc` (src/alm/alm.go:86-94): derives the
key via `cache.DeletionHandlingMetaNamespaceKeyFunc`; on error it logs and
reports failure (`none`). -/
def keyFunc : RawObj → Option String
  | .meta ns name => some (metaNamespaceKey ns name)
  | .tombstone key => some key
  | .bad _ => none

/-- The argument passed to `enqueue` (a Go `interface{}`): `nil`, a string
key, or a raw object. -/
inductive EnqueueArg
  | nilArg
  | strArg (key : String)
  | objArg (o : RawObj)
  deriving DecidableEq

/-- Translation of `Operator.enqueue` (src/alm/alm.go:96-111): `nil` is
ignored; a string is added to the queue directly; otherwise the key is
extracted via `keyFunc`, failures being dropped. -/
def enqueue : EnqueueArg → List QueueOp
  | .nilArg => []
  | .strArg key => [.add key]
  | .objArg o =>
    match keyFunc o with
    | some key => [.add key]
    | none => []

/-- Translation of `Operator.handleAddOperatorVersion`
(src/alm/alm.go:171-178): derive the key; on failure do nothing; otherwise
log and call `enqueue` with the key string. -/
def handleAddOperatorVersion (obj : RawObj) : List QueueOp :=
  match keyFunc obj with
  | some key => enqueue (.strArg key)
  | none => []

/-- The `cache.ResourceEventHandlerFuncs` structure: each notification kind
may or may not have a handler wired; an unwired kind is ignored by the
informer's dispatch. -/
structure ResourceEventHandlerFuncs where
  AddFunc : Option (RawObj → List QueueOp)
  UpdateFunc : Option (RawObj → RawObj → List QueueOp)
  DeleteFunc : Option (RawObj → List QueueOp)

/-- The handler registration performed by `New` (src/alm/alm.go:49-51):
only `AddFunc` is set, to `handleAddOperatorVersion`. -/
def newEventHandlers : ResourceEventHandlerFuncs :=
  { AddFunc := some handleAddOperatorVersion
    UpdateFunc := none
    DeleteFunc := none }

/-- A change notification from the cache mirror. -/
inductive Notification
  | added (o : RawObj)
  | updated (oldObj newObj : RawObj)
  | deleted (o : RawObj)

/-- The informer's dispatch of a notification to the registered handler
functions: a `nil` handler for the notification's kind means no effect. -/
def dispatch (h : ResourceEventHandlerFuncs) : Notification → List QueueOp
  | .added o =>
    match h.AddFunc with
    | some f => f o
    | none => []
  | .updated a b =>
    match h.UpdateFunc with
    | some f => f a b
    | none => []
  | .deleted o =>
    match h.DeleteFunc with
    | some f => f o
    | none => []

/-- Modelled from the spec: the Work Queue collaborator
(`workqueue.RateLimitingInterface`), whose implementation is external to this
repository.  Per the spec's Work Queue contract: `queue` is the FIFO of
deliverable keys, `dirty` the coalescing set of pending keys (at most one
pending entry per key), and `processing` the InFlightSet of keys between
`Get` and `Done`. -/
structure WorkQueue where
  queue : List String
  dirty : List String
  processing : List String
  deriving DecidableEq

/-- Modelled from the spec: `Add(key)`.  An insertion for an already-pending
key is coalesced; an insertion for an in-flight key is buffered (marked
dirty) but not delivered until the in-flight instance completes. -/
def WorkQueue.add (q : WorkQueue) (k : String) : WorkQueue :=
  if k ∈ q.dirty then q
  else
    { queue := if k ∈ q.processing then q.queue else q.queue ++ [k]
      dirty := k :: q.dirty
      processing := q.processing }

/-- Modelled from the spec: `Get()`.  Delivers the FIFO head, moving it from
pending to in-flight; `none` when no item is deliverable (the caller blocks,
or receives `shutdown` after `ShutDown`). -/
def WorkQueue.get (q : WorkQueue) : Option (String × WorkQueue) :=
  match q.queue with
  | [] => none
  | k :: rest =>
    some (k, { queue := rest, dirty := q.dirty.erase k, processing := k :: q.processing })

/-- Modelled from the spec: `Done(key)`.  Removes the key from the
InFlightSet; if an `Add` arrived while the key was in flight (it is dirty),
the key becomes deliverable again. -/
def WorkQueue.done (q : WorkQueue) (k : String) : WorkQueue :=
  if k ∈ q.dirty then
    { queue := q.queue ++ [k], dirty := q.dirty, processing := q.processing.erase k }
  else
    { queue := q.queue, dirty := q.dirty, processing := q.processing.erase k }

/-- State of the concurrent system: the shared work queue and, for each of
the `n` workers, the key it currently holds between `Get` and `Done`
(`none` while it is not processing anything). -/
structure SysState (n : Nat) where
  wq : WorkQueue
  holding : Fin n → Option String

/-- Pointwise update of a worker's held key. -/
def setHold {n : Nat} (h : Fin n → Option String) (i : Fin n) (v : Option String) :
    Fin n → Option String :=
  fun j => if j = i then v else h j

/-- Interleaving semantics of the system: the event dispatcher may `Add`
any key at any time; an idle worker may complete a `Get` when the queue has
a deliverable item; a worker holding a key may finish processing it and call
`Done`. -/
inductive SysStep {n : Nat} : SysState n → SysState n → Prop
  | add (s : SysState n) (k : String) :
      SysStep s ⟨s.wq.add k, s.holding⟩
  | get (s : SysState n) (i : Fin n) (k : String) (q : WorkQueue) :
      s.holding i = none → s.wq.get = some (k, q) →
      SysStep s ⟨q, setHold s.holding i (some k)⟩
  | done (s : SysState n) (i : Fin n) (k : String) :
      s.holding i = some k →
      SysStep s ⟨s.wq.done k, setHold s.holding i none⟩

/-- Initial state: empty queue, every worker idle. -/
def initState (n : Nat) : SysState n := ⟨⟨[], [], []⟩, fun _ => none⟩

/-- States reachable from the initial state by interleaved steps. -/
abbrev Reachable {n : Nat} (s : SysState n) : Prop :=
  Relation.ReflTransGen SysStep (initState n) s

/-- The inductive invariant of the work-queue system: the FIFO holds no
duplicates, only pending-and-dirty keys, and no in-flight key; the
InFlightSet has no duplicates; every held key is in flight; and no key is
held by two workers. -/
structure WQInv {n : Nat} (s : SysState n) : Prop where
  qNodup : s.wq.queue.Nodup
  pNodup : s.wq.processing.Nodup
  qDisj : ∀ k, k ∈ s.wq.queue → k ∉ s.wq.processing
  qDirty : ∀ k, k ∈ s.wq.queue → k ∈ s.wq.dirty
  heldProc : ∀ (i : Fin n) k, s.holding i = some k → k ∈ s.wq.processing
  heldInj : ∀ (i j : Fin n) k, s.holding i = some k → s.holding j = some k → i = j

theorem wqinv_init (n : Nat) : WQInv (initState n) := by
  constructor <;> simp [initState]

theorem wqinv_step {n : Nat} {s t : SysState n} (inv : WQInv s) (st : SysStep s t) :
    WQInv t := by
  cases st with
  | add k =>
    by_cases hd : k ∈ s.wq.dirty
    · have ha : s.wq.add k = s.wq := by simp [WorkQueue.add, hd]
      rw [ha]
      exact ⟨inv.qNodup, inv.pNodup, inv.qDisj, inv.qDirty, inv.heldProc, inv.heldInj⟩
    · by_cases hp : k ∈ s.wq.processing
      · have ha : s.wq.add k = ⟨s.wq.queue, k :: s.wq.dirty, s.wq.processing⟩ := by
          simp [WorkQueue.add, hd, hp]
        rw [ha]
        exact ⟨inv.qNodup, inv.pNodup, inv.qDisj,
          fun m h => List.mem_cons_of_mem _ (inv.qDirty m h),
          inv.heldProc, inv.heldInj⟩
      · have hkq : k ∉ s.wq.queue := fun h => hd (inv.qDirty k h)
        have ha : s.wq.add k = ⟨s.wq.queue ++ [k], k :: s.wq.dirty, s.wq.processing⟩ := by
          simp [WorkQueue.add, hd, hp]
        rw [ha]
        refine ⟨?_, inv.pNodup, ?_, ?_, inv.heldProc, inv.heldInj⟩
        · exact List.Nodup.append inv.qNodup (List.nodup_singleton k)
            (fun m hm hm' => hkq (by simpa using (List.mem_singleton.mp hm') ▸ hm))
        · intro m hm
          rcases List.mem_append.mp hm with h | h
          · exact inv.qDisj m h
          · rw [List.mem_singleton.mp h]; exact hp
        · intro m hm
          rcases List.mem_append.mp hm with h | h
          · exact List.mem_cons_of_mem _ (inv.qDirty m h)
          · rw [List.mem_singleton.mp h]; exact List.mem_cons_self _ _
  | get i k q hidle hget =>
    rcases hqe : s.wq.queue with _ | ⟨a, rest⟩ <;> simp [WorkQueue.get, hqe] at hget
    obtain ⟨hak, hwq⟩ := hget
    subst hak
    subst hwq
    have hnodup : a ∉ rest ∧ rest.Nodup := List.nodup_cons.mp (hqe ▸ inv.qNodup)
    have hamem : a ∈ s.wq.queue := by rw [hqe]; exact List.mem_cons_self _ _
    have hap : a ∉ s.wq.processing := inv.qDisj a hamem
    refine ⟨hnodup.2, List.nodup_cons.mpr ⟨hap, inv.pNodup⟩, ?_, ?_, ?_, ?_⟩
    · intro m hm hm'
      rcases List.mem_cons.mp hm' with h | h
      · exact hnodup.1 (h ▸ hm)
      · exact inv.qDisj m (hqe ▸ List.mem_cons_of_mem _ hm) h
    · intro m hm
      have hne : m ≠ a := fun h => hnodup.1 (h ▸ hm)
      exact (List.mem_erase_of_ne hne).mpr (inv.qDirty m (hqe ▸ List.mem_cons_of_mem _ hm))
    · intro j m hj
      by_cases hji : j = i
      · simp [setHold, hji] at hj
        rw [← hj]; exact List.mem_cons_self _ _
      · simp [setHold, hji] at hj
        exact List.mem_cons_of_mem _ (inv.heldProc j m hj)
    · intro j l m hj hl
      by_cases hji : j = i <;> by_cases hli : l = i <;> simp [setHold, hji, hli] at hj hl
      · rw [hji, hli]
      · exact absurd (hj ▸ inv.heldProc l m hl) hap
      · exact absurd (hl ▸ inv.heldProc j m hj) hap
      · exact inv.heldInj j l m hj hl
  | done i k hold =>
    have hkp : k ∈ s.wq.processing := inv.heldProc i k hold
    have hkq : k ∉ s.wq.queue := fun h => inv.qDisj k h hkp
    have hProc : ∀ (j : Fin n) m, setHold s.holding i none j = some m →
        m ∈ s.wq.processing.erase k := by
      intro j m hj
      by_cases hji : j = i
      · simp [setHold, hji] at hj
      · simp [setHold, hji] at hj
        have hm := inv.heldProc j m hj
        have hne : m ≠ k := fun h => hji (inv.heldInj j i k (h ▸ hj) hold)
        exact (List.mem_erase_of_ne hne).mpr hm
    have hInj : ∀ (j l : Fin n) m, setHold s.holding i none j = some m →
        setHold s.holding i none l = some m → j = l := by
      intro j l m hj hl
      by_cases hji : j = i <;> by_cases hli : l = i <;> simp [setHold, hji, hli] at hj hl
      exact inv.heldInj j l m hj hl
    by_cases hd : k ∈ s.wq.dirty
    · have ha : s.wq.done k =
          ⟨s.wq.queue ++ [k], s.wq.dirty, s.wq.processing.erase k⟩ := by
        simp [WorkQueue.done, hd]
      rw [ha]
      refine ⟨?_, inv.pNodup.erase k, ?_, ?_, hProc, hInj⟩
      · exact List.Nodup.append inv.qNodup (List.nodup_singleton k)
          (fun m hm hm' => hkq ((List.mem_singleton.mp hm') ▸ hm))
      · intro m hm hm'
        rcases List.mem_append.mp hm with h | h
        · exact inv.qDisj m h (List.mem_of_mem_erase hm')
        · rw [List.mem_singleton.mp h] at hm'
          exact ((inv.pNodup.mem_erase_iff.mp hm').1 rfl)
      · intro m hm
        rcases List.mem_append.mp hm with h | h
        · exact inv.qDirty m h
        · rw [List.mem_singleton.mp h]; exact hd
    · have ha : s.wq.done k =
          ⟨s.wq.queue, s.wq.dirty, s.wq.processing.erase k⟩ := by
        simp [WorkQueue.done, hd]
      rw [ha]
      exact ⟨inv.qNodup, inv.pNodup.erase k,
        fun m hm hm' => inv.qDisj m hm (List.mem_of_mem_erase hm'),
        inv.qDirty, hProc, hInj⟩

theorem wqinv_reachable {n : Nat} {s : SysState n} (h : Reachable s) : WQInv s := by
  induction h with
  | refl => exact wqinv_init n
  | tail _ st ih => exact wqinv_step ih st

/-- A concrete system state with two workers, reached after the dispatcher
adds key `"a"` to the empty queue. -/
def exState1 : SysState 2 := ⟨(initState 2).wq.add "a", (initState 2).holding⟩

/-- A concrete system state with two workers in which worker `0` holds key
`"a"` (it is between `Get` and `Done`). -/
def exState2 : SysState 2 := ⟨⟨[], [], ["a"]⟩, setHold exState1.holding 0 (some "a")⟩

theorem exState2_reachable : Reachable exState2 := by
  have h1 : SysStep (initState 2) exState1 := SysStep.add (initState 2) "a"
  have h2 : SysStep exState1 exState2 :=
    SysStep.get exState1 0 "a" ⟨[], [], ["a"]⟩ rfl (by decide)
  exact Relation.ReflTransGen.tail (Relation.ReflTransGen.tail .refl h1) h2

/-- C9: at every point in time, no two workers process the same key
simultaneously.  In every state reachable under the interleaving semantics
with `n` workers, two workers holding the same key (being between `Get` and
`Done` for it) are equal, and while a worker holds a key, no `Get` on the
work queue can deliver that key (to any worker). -/
theorem at_most_one_worker_per_key {n : Nat} (s : SysState n) (h : Reachable s) :
    (∀ i j : Fin n, ∀ k, s.holding i = some k → s.holding j = some k → i = j) ∧
    (∀ (i : Fin n) k q, s.holding i = some k → s.wq.get ≠ some (k, q)) := by
  have inv := wqinv_reachable h
  refine ⟨inv.heldInj, ?_⟩
  intro i k q hold hget
  have hkp : k ∈ s.wq.processing := inv.heldProc i k hold
  rcases hqe : s.wq.queue with _ | ⟨a, rest⟩ <;> simp [WorkQueue.get, hqe] at hget
  obtain ⟨hak, _⟩ := hget
  exact inv.qDisj k (by rw [hqe, hak]; exact List.mem_cons_self _ _) hkp

/-- Witness for C9: in the concrete reachable two-worker state `exState2`,
worker 0 holds key `"a"`, and no `Get` can deliver `"a"`. -/
theorem at_most_one_worker_per_key_witness :
    exState2.holding 0 = some "a" ∧ exState2.wq.get ≠ some ("a", exState2.wq) :=
  ⟨rfl, (at_most_one_worker_per_key exState2 exState2_reachable).2 0 "a" exState2.wq rfl⟩

/-- Example OperatorVersion whose install strategy is `"deployment"`. -/
def exDeployOV : OperatorVersion :=
  ⟨⟨"ns1", "foo"⟩, ⟨⟨[("strategy", .str "deployment"),
                      ("deployments", .other "deploymentsList")]⟩⟩⟩

/-- Example OperatorVersion with an unsupported string strategy. -/
def exHelmOV : OperatorVersion :=
  ⟨⟨"ns1", "helm"⟩, ⟨⟨[("strategy", .str "helm")]⟩⟩⟩

/-- Example OperatorVersion whose strategy discriminator is not a string. -/
def exBadOV : OperatorVersion :=
  ⟨⟨"ns1", "bad"⟩, ⟨⟨[("strategy", .other "3")]⟩⟩⟩

/-- Example cache mirror contents covering every path of `sync`. -/
def exStore : Indexer := fun k =>
  if k = "ns1/foo" then .present (.opVer exDeployOV)
  else if k = "ns1/helm" then .present (.opVer exHelmOV)
  else if k = "ns1/bad" then .present (.opVer exBadOV)
  else if k = "ns1/alien" then .present (.foreign "pod")
  else if k = "ns1/err" then .err "index corrupted"
  else .absent

/-- Example operator whose install collaborator always fails. -/
def exOperator : Operator := ⟨exStore, fun _ _ => some "install failed"⟩

/-- The worker effects of one successful processing step for `key`, given
the effects `effs` of its `sync` call: `Forget` then the deferred `Done`. -/
def successStep (key : String) (effs : List SyncEffect) : List WorkerEffect :=
  .queue .get :: (effs.map WorkerEffect.syncEff ++
    [.queue (.forget key), .queue (.done key)])

/-- The worker effects of one failed processing step for `key` with error
`e`, given the effects `effs` of its `sync` call: the non-fatal report,
`AddRateLimited`, then the deferred `Done`. -/
def failureStep (key : String) (e : String) (effs : List SyncEffect) : List WorkerEffect :=
  .queue .get :: (effs.map WorkerEffect.syncEff ++
    [.handleError ("Sync \"" ++ key ++ "\" failed: " ++ e),
     .queue (.addRateLimited key), .queue (.done key)])

/-- C1: for every key delivered by a non-shutdown `Get`: on `sync` success
the worker calls `Forget` then `Done`; on `sync` error it reports the
wrapped error through the shared non-fatal reporter, then calls
`AddRateLimited`, then `Done`; in both cases the step returns `true` and
the worker continues with the next `Get`; the loop exits exactly when `Get`
reports shutdown. -/
theorem worker_step_spec (o : Operator) (key : String) (quit : Bool)
    (rest : List (String × Bool)) :
    ((o.sync key).1 = none →
      o.processNextWorkItem (key, false) = (true, successStep key (o.sync key).2)) ∧
    (∀ e, (o.sync key).1 = some e →
      o.processNextWorkItem (key, false) = (true, failureStep key e (o.sync key).2)) ∧
    ((o.processNextWorkItem (key, quit)).1 = false ↔ quit = true) ∧
    (o.worker ((key, false) :: rest) =
      (o.processNextWorkItem (key, false)).2 ++ o.worker rest) ∧
    (o.worker ((key, true) :: rest) = [.queue .get]) := by
  rcases hsync : o.sync key with ⟨err, effs⟩
  refine ⟨?_, ?_, ?_, ?_, ?_⟩
  · intro h
    simp only at h
    subst h
    simp [Operator.processNextWorkItem, hsync, successStep]
  · intro e h
    simp only at h
    subst h
    simp [Operator.processNextWorkItem, hsync, failureStep]
  · cases quit <;> cases err <;>
      simp [Operator.processNextWorkItem, hsync]
  · cases err <;> simp [Operator.worker, Operator.processNextWorkItem, hsync]
  · simp [Operator.worker, Operator.processNextWorkItem]

/-- Witness for C1: the success branch at the absent key `"ns1/gone"` and
the failure branch at the foreign object `"ns1/alien"`. -/
theorem worker_step_spec_witness :
    exOperator.processNextWorkItem ("ns1/gone", false) =
      (true, successStep "ns1/gone" (exOperator.sync "ns1/gone").2) ∧
    exOperator.processNextWorkItem ("ns1/alien", false) =
      (true, failureStep "ns1/alien" "casting OperatorVersionSpec failed"
        (exOperator.sync "ns1/alien").2) :=
  ⟨(worker_step_spec exOperator "ns1/gone" false []).1 (by decide),
   (worker_step_spec exOperator "ns1/alien" false []).2.1
     "casting OperatorVersionSpec failed" (by decide)⟩

/-- C10: for every key delivered by a non-shutdown `Get`, the worker step
calls `Done` exactly once for that dequeue, and for that key, on every
outcome of `sync`. -/
theorem done_called_exactly_once (o : Operator) (key : String) :
    ((o.processNextWorkItem (key, false)).2.filter WorkerEffect.isDone) =
      [.queue (.done key)] := by
  have hmap : ∀ effs : List SyncEffect,
      (effs.map WorkerEffect.syncEff).filter WorkerEffect.isDone = [] := by
    intro effs
    induction effs with
    | nil => rfl
    | cons e t ih => simp [WorkerEffect.isDone, ih]
  rcases hsync : o.sync key with ⟨err, effs⟩
  cases err <;>
    simp [Operator.processNextWorkItem, hsync, WorkerEffect.isDone, hmap]

/-- C3: when the cache mirror reports `exists = false` for a key (no lookup
error), `sync` returns `nil` without invoking the install call. -/
theorem sync_missing_object (o : Operator) (key : String)
    (h : o.store key = .absent) :
    (o.sync key).1 = none ∧ ∀ e ∈ (o.sync key).2, e.isInstall = false := by
  simp [Operator.sync, h, SyncEffect.isInstall]

/-- Witness for C3 at the concrete key `"ns1/gone"`. -/
theorem sync_missing_object_witness :
    (exOperator.sync "ns1/gone").1 = none ∧
      ∀ e ∈ (exOperator.sync "ns1/gone").2, e.isInstall = false :=
  sync_missing_object exOperator "ns1/gone" (by decide)

/-- Counterexample to C4 as stated: the object at `"ns1/bad"` has a
strategy discriminator that is not `"deployment"` (it is not even a
string), yet `sync` does not complete successfully — it returns the
strategy cast error. -/
theorem sync_nonstring_strategy_fails :
    (exOperator.sync "ns1/bad").1 = some "casting strategy failed" := by decide

/-- C4 (amended): for every cached object whose strategy discriminator is a
string other than `"deployment"`, `sync` returns `nil` and performs no
installation call. -/
theorem sync_unsupported_strategy_noop (o : Operator) (key : String)
    (ov : OperatorVersion) (s : String)
    (hstore : o.store key = .present (.opVer ov))
    (hstrat : ov.Spec.InstallStrategy.UnstructuredContent.get "strategy" =
      some (.str s))
    (hne : s ≠ "deployment") :
    (o.sync key).1 = none ∧ ∀ e ∈ (o.sync key).2, e.isInstall = false := by
  have hb : (s == "deployment") = false := by simp [hne]
  simp [Operator.sync, hstore, hstrat, hb, SyncEffect.isInstall]

/-- Witness for C4 (amended) at the concrete key `"ns1/helm"`. -/
theorem sync_unsupported_strategy_noop_witness :
    (exOperator.sync "ns1/helm").1 = none ∧
      ∀ e ∈ (exOperator.sync "ns1/helm").2, e.isInstall = false :=
  sync_unsupported_strategy_noop exOperator "ns1/helm" exHelmOV "helm"
    (by decide) (by decide) (by decide)

/-- C5: a cached value that cannot be cast to `*OperatorVersion` makes
`sync` return an error; the worker step then does not terminate (it returns
`true`), routes the wrapped error through the non-fatal reporter, and
requeues the key with backoff via `AddRateLimited` before `Done`. -/
theorem sync_cast_error_requeued (o : Operator) (key : String) (tag : String)
    (h : o.store key = .present (.foreign tag)) :
    (o.sync key).1 = some "casting OperatorVersionSpec failed" ∧
    o.processNextWorkItem (key, false) =
      (true, failureStep key "casting OperatorVersionSpec failed"
        [.cacheOp (.getByKey key)]) := by
  have hs : o.sync key =
      (some "casting OperatorVersionSpec failed", [.cacheOp (.getByKey key)]) := by
    simp [Operator.sync, h]
  exact ⟨by simp [hs], by simp [Operator.processNextWorkItem, hs, failureStep]⟩

/-- Witness for C5 at the concrete key `"ns1/alien"`. -/
theorem sync_cast_error_requeued_witness :
    (exOperator.sync "ns1/alien").1 = some "casting OperatorVersionSpec failed" ∧
    exOperator.processNextWorkItem ("ns1/alien", false) =
      (true, failureStep "ns1/alien" "casting OperatorVersionSpec failed"
        [.cacheOp (.getByKey "ns1/alien")]) :=
  sync_cast_error_requeued exOperator "ns1/alien" "pod" (by decide)

/-- C2 is violated by the code: the result of the install call is discarded
(src/alm/alm.go:165-166), so even when the reconcile action fails, `sync`
returns `nil` and the worker step calls `Forget` — never `AddRateLimited`.
Evaluated at the failing input: key `"ns1/foo"` holds a
`"deployment"`-strategy object and the install collaborator returns `r`;
the install is invoked, yet the step is a success step, for every `r`. -/
theorem install_failure_ignored : ∀ r : Option String,
    (Operator.sync ⟨exStore, fun _ _ => r⟩ "ns1/foo").1 = none ∧
    .installCall "ns1" (some (.other "deploymentsList")) ∈
      (Operator.sync ⟨exStore, fun _ _ => r⟩ "ns1/foo").2 ∧
    Operator.processNextWorkItem ⟨exStore, fun _ _ => r⟩ ("ns1/foo", false) =
      (true, successStep "ns1/foo"
        [.cacheOp (.getByKey "ns1/foo"), .logInfo "sync OperatorVersionSpec",
         .installCall "ns1" (some (.other "deploymentsList"))]) := by
  intro r
  exact ⟨rfl, by simp [Operator.sync, exStore, exDeployOV, UMap.get], rfl⟩

/-- C6: in `Run`'s startup race, a probe failure makes `Run` return the
wrapped probe error without entering the running phase, starting the
worker, or starting the informer; a stop signal that wins the race makes
`Run` return `nil`, equally without starting anything. -/
theorem run_startup_race : ∀ e : String,
    Run (.probe (.fail e)) =
      ⟨some ("communicating with server failed: " ++ e), false, false, false⟩ ∧
    Run .stop = ⟨none, false, false, false⟩ :=
  fun _ => ⟨rfl, rfl⟩

/-- C7: the dispatcher wired by `New` enqueues only on add notifications:
an add notification whose key derivation succeeds enqueues exactly that
key; update and delete notifications never enqueue. -/
theorem dispatcher_add_only (o a b : RawObj) (k : String)
    (h : keyFunc o = some k) :
    dispatch newEventHandlers (.added o) = [.add k] ∧
    dispatch newEventHandlers (.updated a b) = [] ∧
    dispatch newEventHandlers (.deleted o) = [] := by
  refine ⟨?_, rfl, rfl⟩
  simp [dispatch, newEventHandlers, handleAddOperatorVersion, h, enqueue]

/-- Witness for C7 at a concrete object in namespace `ns1` named `foo`. -/
theorem dispatcher_add_only_witness :
    dispatch newEventHandlers (.added (.meta "ns1" "foo")) = [.add "ns1/foo"] ∧
    dispatch newEventHandlers (.updated (.meta "ns1" "foo") (.meta "ns1" "foo")) = [] ∧
    dispatch newEventHandlers (.deleted (.meta "ns1" "foo")) = [] :=
  dispatcher_add_only (.meta "ns1" "foo") (.meta "ns1" "foo") (.meta "ns1" "foo")
    "ns1/foo" (by decide)

theorem sync_cacheOps (o : Operator) (key : String) :
    cacheOpsOf (o.sync key).2 = [.getByKey key] := by
  rcases h : o.store key with msg | _ | obj
  · simp [Operator.sync, h, cacheOpsOf]
  · simp [Operator.sync, h, cacheOpsOf]
  · rcases obj with ov | tag
    · rcases hg : ov.Spec.InstallStrategy.UnstructuredContent.get "strategy"
        with _ | sv
      · simp [Operator.sync, h, hg, cacheOpsOf]
      · rcases sv with s | t
        · cases hsb : (s == "deployment") <;>
            simp [Operator.sync, h, hg, hsb, cacheOpsOf]
        · simp [Operator.sync, h, hg, cacheOpsOf]
    · simp [Operator.sync, h, cacheOpsOf]

/-- C8: `sync` never mutates the cache mirror: every cache operation it
performs is a read (`GetByKey`), and interpreting its cache-operation trace
over any cache state — in particular the operator's own — leaves that state
unchanged, on every path of `sync`. -/
theorem sync_no_cache_mutation (o : Operator) (key : String) :
    (∀ op ∈ cacheOpsOf (o.sync key).2, op.isMutation = false) ∧
    (∀ st : Indexer, applyCacheOps st (cacheOpsOf (o.sync key).2) = st) ∧
    applyCacheOps o.store (cacheOpsOf (o.sync key).2) = o.store := by
  rw [sync_cacheOps]
  exact ⟨by simp [CacheOp.isMutation], fun st => rfl, rfl⟩

end Alm






